import Mathlib

/-!
# Verification of the DeckBot ingestion and retrieval pipeline

Shallow embedding of the core pure logic of the DeckBot scripts:

* `scripts/transform_to_pinecone_format.py` — `sanitize_id`,
  `transform_metadata_to_records`, `build_deck_content`, `build_slide_content`,
  `create_batches`, `validate_record`;
* `scripts/upsert_to_pinecone.py` — `sanitize_pdf_id`;
* `scripts/validate_transformation.py` — `validate_pinecone_records`;
* `scripts/deckbot_unified_index.py` — `_merge_results`, `cascading_search`;
* `scripts/setup_hybrid_search.py` — `merge_results`.

Strings are modelled as Lean `String`/`List Char`; Python search scores
(floats) are modelled as rationals `ℚ`; Python dictionaries with unknown key
sets are modelled as association lists; fallible operations return
`Except PyError`.  External services (the vector indexes and the reranker)
are modelled as function parameters; the reranker parameter additionally
lets us record the exact invocations the pipeline performs.
-/

/-- Errors raised by the Python code under consideration.  The repository
defines no custom exception classes; the only errors its pure core can raise
are the built-in `ValueError` (from `range(0, n, 0)`) and `KeyError`
(from indexing a dict with a missing key). -/
inductive PyError
  | valueError (msg : String)
  | keyError (key : String)
deriving DecidableEq, Repr

/-! ## Python string / char primitives -/

/-- Python `str.replace(old, new)` for single-character `old`/`new`
(a per-character map). -/
def pyReplaceChar (old new : Char) (l : List Char) : List Char :=
  l.map (fun c => if c == old then new else c)

/-- Python `str.replace(old, '')` for a single-character `old`
(deletes every occurrence). -/
def pyDeleteChar (old : Char) (l : List Char) : List Char :=
  l.filter (fun c => !(c == old))

/-- The character test of `transform_to_pinecone_format.sanitize_id` line 39:
`c.isascii() and (c.isalnum() or c == '_')`.  On ASCII characters Python's
`isalnum` coincides with `Char.isAlphanum` (letters and digits). -/
def keepChar39 (c : Char) : Bool :=
  decide (c.toNat < 128) && (c.isAlphanum || c == '_')

/-- The character test of `upsert_to_pinecone.sanitize_pdf_id` line 22:
`c.isascii() and (c.isalnum() or c in '_- ')`. -/
def keepCharPdf (c : Char) : Bool :=
  decide (c.toNat < 128) && (c.isAlphanum || c == '_' || c == '-' || c == ' ')

/-- One pass of Python `clean.replace('__', '_')`: scans left to right,
replacing non-overlapping occurrences of `'__'` by `'_'`. -/
def replaceDoubleUnd : List Char → List Char
  | c1 :: c2 :: rest =>
    if c1 == '_' && c2 == '_' then '_' :: replaceDoubleUnd rest
    else c1 :: replaceDoubleUnd (c2 :: rest)
  | [c] => [c]
  | [] => []

/-- Python `'__' in clean` (contiguous-substring test for `'__'`). -/
def containsDoubleUnd : List Char → Bool
  | c1 :: c2 :: rest => (c1 == '_' && c2 == '_') || containsDoubleUnd (c2 :: rest)
  | [_] => false
  | [] => false

/-- The loop `while '__' in clean: clean = clean.replace('__', '_')`,
with an explicit fuel argument.  Each iteration strictly shortens the string,
so `s.length` units of fuel are enough to reach the loop's exit condition
(`collapseUnd_not_containsDouble` below proves the fixed point is reached). -/
def whileReplaceDoubleUnd : Nat → List Char → List Char
  | 0, s => s
  | fuel + 1, s =>
    if containsDoubleUnd s then whileReplaceDoubleUnd fuel (replaceDoubleUnd s) else s

/-- The full `while` loop of `sanitize_id` lines 42–43 (and
`sanitize_pdf_id` lines 26–27). -/
def collapseUnd (s : List Char) : List Char :=
  whileReplaceDoubleUnd s.length s

/-- Python `str.strip('_')`: drop leading and trailing underscores. -/
def stripUnd (l : List Char) : List Char :=
  (((l.dropWhile (fun c => c == '_')).reverse.dropWhile (fun c => c == '_'))).reverse

/-- Python `text.endswith('.pdf')`. -/
def endsWithPdf (l : List Char) : Bool :=
  decide (4 ≤ l.length) && (l.drop (l.length - 4) == ['.', 'p', 'd', 'f'])

/-- Python `str.strip()` (no argument): trim ASCII whitespace from both ends.
(The repository only ever strips ASCII content at this point.) -/
def isPyWs (c : Char) : Bool :=
  c == ' ' || c == '\t' || c == '\n' || c == '\r' || c == '\x0b' || c == '\x0c'

def pyStripWs (l : List Char) : List Char :=
  (((l.dropWhile isPyWs).reverse.dropWhile isPyWs)).reverse

/-! ## `sanitize_id` (`transform_to_pinecone_format.py` lines 25–45) -/

/-- Core of `sanitize_id` on character lists, mirroring the source
line by line:
strip a trailing `.pdf`; `' '→'_'`; delete `'('`, `')'`, `'['`, `']'`;
`'-'→'_'`; keep ASCII alphanumerics and `'_'`, replacing every other
character by `'_'`; collapse runs of underscores; strip edge underscores;
lowercase. -/
def sanitizeCore (text0 : List Char) : List Char :=
  let text := if endsWithPdf text0 then text0.take (text0.length - 4) else text0
  let c1 := pyDeleteChar ')' (pyDeleteChar '(' (pyReplaceChar ' ' '_' text))
  let c2 := pyReplaceChar '-' '_' (pyDeleteChar ']' (pyDeleteChar '[' c1))
  let c3 := c2.map (fun c => if keepChar39 c then c else '_')
  (stripUnd (collapseUnd c3)).map Char.toLower

/-- `transform_to_pinecone_format.sanitize_id`. -/
def sanitize_id (s : String) : String :=
  String.mk (sanitizeCore s.data)

/-! ## `sanitize_pdf_id` (`upsert_to_pinecone.py` lines 15–29) -/

/-- Index of the last occurrence of `c` in `l`, if any (Python `str.rfind`). -/
def rfindIdx (c : Char) (l : List Char) : Option Nat :=
  match l.reverse.findIdx? (fun x => x == c) with
  | some j => some (l.length - 1 - j)
  | none => none

/-- `pathlib.Path(filename).stem` for the plain file names this script is
called with: the final `/`-separated component, minus the suffix starting at
its last dot — provided that dot is neither the first nor the last
character of the component. -/
def pyStemCore (l : List Char) : List Char :=
  let name := (l.splitOn '/').getLastD []
  match rfindIdx '.' name with
  | some i => if 0 < i ∧ i < name.length - 1 then name.take i else name
  | none => name

/-- Core of `sanitize_pdf_id` on character lists: `Path(...).stem`; delete
`'('`, `')'`, `'['`, `']'`; keep ASCII alphanumerics and `'_'`, `'-'`, `' '`,
replacing every other character by `'_'`; `' '→'_'`; `'-'→'_'`; collapse
runs of underscores; strip edge underscores; lowercase. -/
def sanitizePdfCore (l : List Char) : List Char :=
  let base := pyStemCore l
  let c1 := pyDeleteChar ']' (pyDeleteChar '[' (pyDeleteChar ')' (pyDeleteChar '(' base)))
  let c2 := c1.map (fun c => if keepCharPdf c then c else '_')
  let c3 := pyReplaceChar '-' '_' (pyReplaceChar ' ' '_' c2)
  (stripUnd (collapseUnd c3)).map Char.toLower

/-- `upsert_to_pinecone.sanitize_pdf_id`. -/
def sanitize_pdf_id (s : String) : String :=
  String.mk (sanitizePdfCore s.data)

/-! ## The sanitizer as the specification describes it -/

/-- Modelled from the spec: §4.4 says the sanitizer should "replace
whitespace and the characters `()[]-` with underscore" and then "drop every
character that is not ASCII alphanumeric or underscore", before collapsing
underscore runs, stripping edge underscores and lowercasing.  This definition
follows those words; it exists only to be compared with `sanitize_id`. -/
def sanitizeClaimCore (text0 : List Char) : List Char :=
  let text := if endsWithPdf text0 then text0.take (text0.length - 4) else text0
  let c1 := text.map (fun c =>
    if isPyWs c || c == '(' || c == ')' || c == '[' || c == ']' || c == '-' then '_' else c)
  let c2 := c1.filter keepChar39
  (stripUnd (collapseUnd c2)).map Char.toLower

def sanitizeClaim (s : String) : String :=
  String.mk (sanitizeClaimCore s.data)

/-- The per-character behaviour `sanitize_id` actually implements (the
amended description): parentheses and brackets are deleted outright; space
and hyphen become `'_'`; ASCII alphanumerics and `'_'` are kept; every other
character (other whitespace, punctuation, and all non-ASCII text alike)
becomes `'_'`. -/
def sanitizeCharStep (c : Char) : List Char :=
  if c == '(' || c == ')' || c == '[' || c == ']' then []
  else if c == ' ' || c == '-' then ['_']
  else if keepChar39 c then [c]
  else ['_']

/-- `sanitize_id` as the amended claim describes it: strip `.pdf`, apply
`sanitizeCharStep` characterwise, then collapse underscores, strip edge
underscores and lowercase. -/
def sanitizeAmendedCore (text0 : List Char) : List Char :=
  let text := if endsWithPdf text0 then text0.take (text0.length - 4) else text0
  (stripUnd (collapseUnd (text.flatMap sanitizeCharStep))).map Char.toLower

/-! ## Python values and dictionaries

Records are Python dicts whose values are strings, ints or lists; they are
modelled as association lists (Python dicts have unique keys; lookups take
the first matching key). -/

inductive PyVal
  | str (s : String)
  | int (n : Int)
  | list (elems : List String)
deriving DecidableEq, Repr

def PyDict : Type := List (String × PyVal)

instance : DecidableEq PyDict := inferInstanceAs (DecidableEq (List (String × PyVal)))

/-- Python `record.get(k)` (`None` when absent). -/
def dget (r : PyDict) (k : String) : Option PyVal :=
  (List.find? (fun kv => kv.1 == k) r).map (fun kv => kv.2)

/-- Python `k in record`. -/
def hasKey (r : PyDict) (k : String) : Bool :=
  List.any r (fun kv => kv.1 == k)

/-- Python truthiness of an optional value (`None`, `''`, `0` and `[]`
are falsy). -/
def pyTruthy : Option PyVal → Bool
  | none => false
  | some (.str s) => !(s == "")
  | some (.int n) => !(n == 0)
  | some (.list l) => !l.isEmpty

/-- Truthiness of an optional string (for `.get(...)` results used in
boolean position). -/
def truthyStr : Option String → Bool
  | none => false
  | some s => !(s == "")

/-- Left-pad a decimal string with zeros to width `w`. -/
def padZeros (w : Nat) (s : String) : String :=
  String.mk (List.replicate (w - s.length) '0') ++ s

/-- Python `f"{n:03d}"`: decimal, zero-padded to a total width of three
characters (sign included for negative numbers). -/
def pyFormat03d (n : Int) : String :=
  if n < 0 then "-" ++ padZeros 2 (Nat.repr n.natAbs)
  else padZeros 3 (Nat.repr n.toNat)

/-! ## Record builder (`transform_to_pinecone_format.py` lines 48–203)

The parsed input JSON.  Fields the Python code reads with `.get(...)` are
`Option`s (absent keys yield the `.get` default); `filename` is read with
direct indexing but no claim concerns its absence, so it is a plain field.
`slide_number` is read with direct indexing (`slide['slide_number']`), which
raises `KeyError` when the key is missing, so it is an `Option` whose `none`
case must error. -/

structure DeckMeta where
  filename : String
  company_name : Option String := none
  deck_industry : Option String := none
  executive_summary : Option String := none
  total_pages : Option Int := none
  created_date : Option String := none
  pdf_url : Option String := none
deriving DecidableEq, Repr

structure SlideData where
  slide_number : Option Int := none
  slide_content : Option String := none
  slide_summary : Option String := none
  keywords : Option (List String) := none
  slide_layout : Option String := none
  image_url : Option String := none
deriving DecidableEq, Repr

/-- `build_deck_content` (lines 166–177). -/
def build_deck_content (deck : DeckMeta) : String :=
  String.intercalate "\n"
    [ "Filename: " ++ deck.filename
    , "Industry: " ++ deck.deck_industry.getD ""
    , "Company: " ++ deck.company_name.getD ""
    , "Executive Summary: " ++ deck.executive_summary.getD "" ]

/-- `build_slide_content` (lines 180–203). -/
def build_slide_content (s : SlideData) : String :=
  String.intercalate "\n"
    ((if truthyStr s.slide_content then ["Content: " ++ s.slide_content.getD ""] else []) ++
     (if truthyStr s.slide_summary then ["Summary: " ++ s.slide_summary.getD ""] else []) ++
     (if !(s.keywords.getD []).isEmpty then
        ["Keywords: " ++ String.intercalate ", " (s.keywords.getD [])] else []) ++
     (if truthyStr s.slide_layout then ["Layout: " ++ s.slide_layout.getD ""] else []))

/-- The deck-level record (lines 117–133), including the conditional
`pdf_url` key. -/
def deckRecord (pdf_id : String) (deck : DeckMeta) : PyDict :=
  [ ("_id", .str (pdf_id ++ "_meta"))
  , ("content", .str (build_deck_content deck))
  , ("type", .str "deck_metadata")
  , ("pdf_id", .str pdf_id)
  , ("pdf_filename", .str deck.filename)
  , ("company", .str (deck.company_name.getD ""))
  , ("industry", .str (deck.deck_industry.getD ""))
  , ("total_pages", .int (deck.total_pages.getD 0))
  , ("created_date", .str (deck.created_date.getD "")) ] ++
  (if truthyStr deck.pdf_url then [("pdf_url", .str (deck.pdf_url.getD ""))] else [])

/-- One slide record (lines 136–150).  `slide['slide_number']` is a direct
dict index: a missing key raises `KeyError('slide_number')` while the
record for this slide is being built. -/
def slideRecord (pdf_id : String) (deck : DeckMeta) (s : SlideData) :
    Except PyError PyDict :=
  match s.slide_number with
  | none => .error (.keyError "slide_number")
  | some n => .ok
      [ ("_id", .str (pdf_id ++ "_slide_" ++ pyFormat03d n))
      , ("content", .str (build_slide_content s))
      , ("type", .str "slide")
      , ("pdf_id", .str pdf_id)
      , ("pdf_filename", .str deck.filename)
      , ("company", .str (deck.company_name.getD ""))
      , ("industry", .str (deck.deck_industry.getD ""))
      , ("slide_number", .int n)
      , ("keywords", .str (String.intercalate ", " (s.keywords.getD [])))
      , ("slide_layout", .str (s.slide_layout.getD ""))
      , ("image_url", .str (s.image_url.getD "")) ]

/-- `transform_metadata_to_records` (lines 48–163), minus file/console I/O.
Returns the record list and the `doc_info` summary dict.  The timestamp used
by the empty-sanitization fallback (line 105) is nondeterministic in the
source, so it is taken as the parameter `now_id`.  A slide without a
`slide_number` key makes the whole call raise; no record list is produced. -/
def transform_metadata_to_records (deck : DeckMeta) (slides : List SlideData)
    (now_id : String) : Except PyError (List PyDict × PyDict) := do
  let pdf_id0 := sanitize_id deck.filename
  let pdf_id := if pdf_id0 = "" ∨ pdf_id0 = "_" then "doc_" ++ now_id else pdf_id0
  let slideRecs ← slides.mapM (slideRecord pdf_id deck)
  let records := deckRecord pdf_id deck :: slideRecs
  let doc_info : PyDict :=
    [ ("pdf_id", .str pdf_id)
    , ("filename", .str deck.filename)
    , ("company", .str (deck.company_name.getD ""))
    , ("industry", .str (deck.deck_industry.getD ""))
    , ("total_records", .int records.length)
    , ("deck_metadata_record", .int 1)
    , ("slide_records", .int slides.length) ]
  return (records, doc_info)

/-! ## Validators -/

/-- `transform_to_pinecone_format.validate_record` (lines 220–237): checks
only that `_id` is present and that `content` is present, a truthy string,
and non-empty after `strip()`. -/
def validate_record (record : PyDict) : Bool × String :=
  if !hasKey record "_id" then (false, "Missing '_id' field")
  else if !hasKey record "content" then (false, "Missing 'content' field")
  else
    match dget record "content" with
    | some (.str s) =>
      if s == "" then (false, "Invalid or empty 'content' field")
      else if (pyStripWs s.data).length == 0 then (false, "Empty 'content' field")
      else (true, "Valid")
    | _ => (false, "Invalid or empty 'content' field")

/-- The required-field set of `validate_pinecone_records` (line 178). -/
def REQUIRED_FIELDS : List String :=
  ["_id", "content", "type", "pdf_id", "pdf_title", "company", "industry"]

/-- Line 192 of `validate_transformation.py`:
`isinstance(record.get("content"), str) and record.get("content")` —
note: the string is NOT stripped, so whitespace-only content passes. -/
def contentOkPR (r : PyDict) : Bool :=
  match dget r "content" with
  | some (.str s) => !(s == "")
  | _ => false

/-- Line 196: `record.get("type") in ["deck_metadata", "slide"]`. -/
def typeOkPR (r : PyDict) : Bool :=
  (dget r "type" == some (.str "deck_metadata")) ||
  (dget r "type" == some (.str "slide"))

/-- The failure messages `validate_pinecone_records` appends for one record
(lines 180–206 of `validate_transformation.py`); the empty list means the
record passes every check.  One record can contribute several messages. -/
def recordFailures (idx : Nat) (r : PyDict) : List String :=
  (if REQUIRED_FIELDS.all (fun k => hasKey r k) then []
   else ["Record " ++ Nat.repr idx ++ ": Missing required fields"]) ++
  (if pyTruthy (dget r "_id") then []
   else ["Record " ++ Nat.repr idx ++ ": Empty _id"]) ++
  (if contentOkPR r then []
   else ["Record " ++ Nat.repr idx ++ ": content must be non-empty string"]) ++
  (if typeOkPR r then []
   else ["Record " ++ Nat.repr idx ++ ": type must be 'deck_metadata' or 'slide'"]) ++
  (if dget r "type" == some (.str "slide") then
     (if hasKey r "slide_number" then []
      else ["Record " ++ Nat.repr idx ++ ": slide missing slide_number"]) ++
     (if hasKey r "keywords" then []
      else ["Record " ++ Nat.repr idx ++ ": slide missing keywords"])
   else [])

/-- `validate_transformation.validate_pinecone_records` (lines 174–215):
iterates over ALL records collecting failure messages, and succeeds iff no
message was collected (any failure blocks the whole record set). -/
def validate_pinecone_records (records : List PyDict) : Bool × List String :=
  let errs := (records.enum.map (fun p => recordFailures p.1 p.2)).flatten
  (errs.isEmpty, errs)

/-- The record-level predicate `validate_pinecone_records` actually
enforces (the amended claim): the seven required keys are present, `_id` is
truthy, `content` is a non-empty string (not trimmed), `type` is one of the
two known values, and slide records carry `slide_number` and `keywords`. -/
def goodRecord (r : PyDict) : Bool :=
  REQUIRED_FIELDS.all (fun k => hasKey r k) &&
  pyTruthy (dget r "_id") &&
  contentOkPR r &&
  typeOkPR r &&
  (!(dget r "type" == some (.str "slide")) ||
    (hasKey r "slide_number" && hasKey r "keywords"))

/-- The record-level predicate `validate_record` actually enforces:
`_id` and `content` keys present, `content` a truthy string whose
`strip()` is non-empty (and nothing about `type` or slide attributes). -/
def goodRecordT (r : PyDict) : Bool :=
  hasKey r "_id" && hasKey r "content" &&
  (match dget r "content" with
   | some (.str s) => !(s == "") && !((pyStripWs s.data).length == 0)
   | _ => false)

/-! ## Batcher (`transform_to_pinecone_format.py` lines 206–217) -/

/-- Python `range(start, stop, step)` for `step ≠ 0`, via its closed form:
`max 0 ⌈(stop-start)/step⌉` evenly spaced values from `start`. -/
def pyRange (start stop step : Int) : List Int :=
  if 0 < step then
    (List.range ((stop - start + step - 1) / step).toNat).map
      (fun j : Nat => start + step * (j : Int))
  else if step < 0 then
    (List.range ((start - stop + (-step) - 1) / (-step)).toNat).map
      (fun j : Nat => start + step * (j : Int))
  else []

/-- Python `l[a:b]` for `0 ≤ a` (the only case `create_batches` reaches):
the elements at indices `max 0 a ≤ i < min (len l) b`. -/
def pySlice (l : List α) (a b : Int) : List α :=
  (l.take b.toNat).drop a.toNat

/-- `create_batches`: `records[i:i+batch_size]` for
`i in range(0, len(records), batch_size)`.  Python's `range` raises
`ValueError` on a zero step; a negative step yields an empty range, hence an
empty batch list. -/
def create_batches (records : List α) (batch_size : Int) :
    Except PyError (List (List α)) :=
  if batch_size = 0 then .error (.valueError "range() arg 3 must not be zero")
  else .ok ((pyRange 0 records.length batch_size).map
    (fun i => pySlice records i (i + batch_size)))

/-! ## Cascading retrieval: merge and rerank
(`deckbot_unified_index.py` lines 194–304, `setup_hybrid_search.py`
lines 46–144)

A search hit `{'_id': ..., '_score': ..., 'fields': {...}}` is modelled
with the mandatory `'content'` entry of its `fields` dict split out from
the remaining field entries. -/

structure Hit where
  id : String
  content : String
  score : ℚ
  attrs : List (String × String)
deriving DecidableEq, Repr

/-- A merged document `{'_id', 'content', '_score', **attrs}`. -/
structure MergedDoc where
  id : String
  content : String
  score : ℚ
  attrs : List (String × String)
deriving DecidableEq, Repr

/-- The doc `deckbot_unified_index._merge_results` builds from one hit
(lines 274–283 and 293–301): content, score, and ALL non-content fields. -/
def denseDocAll (h : Hit) : MergedDoc :=
  ⟨h.id, h.content, h.score, h.attrs⟩

/-- The field whitelist of `setup_hybrid_search.merge_results`
(lines 124 and 139). -/
def HYBRID_KEYS : List String := ["keywords", "slide_number", "type"]

/-- The doc `setup_hybrid_search.merge_results` builds from one hit: only
`keywords`, `slide_number` and `type` are copied over. -/
def hybridDoc (h : Hit) : MergedDoc :=
  ⟨h.id, h.content, h.score,
    HYBRID_KEYS.filterMap (fun k =>
      (List.find? (fun kv => kv.1 == k) h.attrs).map (fun kv => (k, kv.2)))⟩

/-- `hits[hit['_id']] = doc` on an insertion-ordered dict modelled as a
list: replace in place if the id is present, else append. -/
def dictInsert (m : List MergedDoc) (d : MergedDoc) : List MergedDoc :=
  if m.any (fun x => x.id == d.id) then
    m.map (fun x => if x.id == d.id then d else x)
  else m ++ [d]

/-- The sparse pass of both merge functions: if the id is present, replace
its score by the mean of the stored (dense) score and the sparse score,
leaving content and attributes untouched; otherwise insert the sparse hit's
own doc. -/
def sparseStep (toDoc : Hit → MergedDoc) (m : List MergedDoc) (h : Hit) :
    List MergedDoc :=
  if m.any (fun x => x.id == h.id) then
    m.map (fun x =>
      if x.id == h.id then { x with score := (x.score + h.score) / 2 } else x)
  else m ++ [toDoc h]

/-- `sorted(hits.values(), key=lambda x: x['_score'], reverse=True)`:
Python's sort is stable, so this is a stable sort by descending score over
the dict's insertion order — modelled as a stable insertion sort. -/
def scoreDescSort (l : List MergedDoc) : List MergedDoc :=
  List.insertionSort (fun a b => b.score ≤ a.score) l

/-- `deckbot_unified_index._merge_results` (lines 268–304): insert every
dense hit into an id-keyed dict, fold the sparse hits in (averaging scores
on id collision), and sort the values by descending score. -/
def _merge_results (dense sparse : List Hit) : List MergedDoc :=
  scoreDescSort
    (sparse.foldl (sparseStep denseDocAll)
      (dense.foldl (fun m h => dictInsert m (denseDocAll h)) []))

/-- `setup_hybrid_search.merge_results` (lines 112–144): same two passes,
but each doc carries only the whitelisted fields. -/
def merge_results (dense sparse : List Hit) : List MergedDoc :=
  scoreDescSort
    (sparse.foldl (sparseStep hybridDoc)
      (dense.foldl (fun m h => dictInsert m (hybridDoc h)) []))

/-- One call to `pc.inference.rerank` as issued by `cascading_search`
(lines 253–261). -/
structure RerankInvocation where
  model : String
  query : String
  documents : List MergedDoc
  top_n : Nat
deriving DecidableEq, Repr

/-- `DeckBotIndexManager.cascading_search` (lines 194–266) after the two
index fan-out calls: the dense and sparse hit lists are the fan-out results,
`reranker` is the external rerank capability, and the second component
records every rerank invocation the function performs.  The source has no
empty-merge guard: `pc.inference.rerank` is called unconditionally, with
`top_n = min(rerank_top_n, len(merged))`. -/
def cascading_search {β : Type} (reranker : RerankInvocation → β)
    (query : String) (dense_hits sparse_hits : List Hit)
    (rerank_top_n : Nat) : β × List RerankInvocation :=
  let merged := _merge_results dense_hits sparse_hits
  let call : RerankInvocation :=
    { model := "bge-reranker-v2-m3", query := query, documents := merged,
      top_n := min rerank_top_n merged.length }
  (reranker call, [call])

/-! ## Helper lemmas about characters -/

/-- The output alphabet of both sanitizers: ASCII lowercase letters, ASCII
digits and underscore. -/
def isOutChar (c : Char) : Bool :=
  decide (c.toNat < 128) && (c.isLower || c.isDigit || c == '_')

theorem char_cases_lt128 (P : Char → Prop) [DecidablePred P]
    (h : ∀ i : Fin 128, P (Char.ofNat i.val)) :
    ∀ c : Char, c.toNat < 128 → P c := by
  intro c hc
  have h2 := h ⟨c.toNat, hc⟩
  simpa [Char.ofNat_toNat] using h2

theorem keepChar39_ascii {c : Char} (h : keepChar39 c = true) : c.toNat < 128 := by
  have h2 := (Bool.and_eq_true _ _).mp h
  exact of_decide_eq_true h2.1

theorem keepCharPdf_ascii {c : Char} (h : keepCharPdf c = true) : c.toNat < 128 := by
  have h2 := (Bool.and_eq_true _ _).mp h
  exact of_decide_eq_true h2.1

theorem isOutChar_ascii {c : Char} (h : isOutChar c = true) : c.toNat < 128 := by
  have h2 := (Bool.and_eq_true _ _).mp h
  exact of_decide_eq_true h2.1

theorem keep39_lift (P : Char → Prop) [DecidablePred P]
    (h : ∀ i : Fin 128, keepChar39 (Char.ofNat i.val) = true → P (Char.ofNat i.val)) :
    ∀ c, keepChar39 c = true → P c := fun c hc =>
  char_cases_lt128 (fun c => keepChar39 c = true → P c) h c (keepChar39_ascii hc) hc

theorem toLower_isOut {c : Char} (h : keepChar39 c = true) :
    isOutChar (Char.toLower c) = true :=
  keep39_lift (fun c => isOutChar (Char.toLower c) = true) (by decide) c h

theorem toLower_fix {c : Char} (h : isOutChar c = true) : Char.toLower c = c :=
  char_cases_lt128 (fun c => isOutChar c = true → Char.toLower c = c) (by decide) c
    (isOutChar_ascii h) h

theorem toLower_eq_und {c : Char} (h : keepChar39 c = true) :
    Char.toLower c = '_' ↔ c = '_' :=
  keep39_lift (fun c => Char.toLower c = '_' ↔ c = '_') (by decide) c h

theorem keep39_of_out {c : Char} (h : isOutChar c = true) : keepChar39 c = true :=
  char_cases_lt128 (fun c => isOutChar c = true → keepChar39 c = true) (by decide) c
    (isOutChar_ascii h) h

theorem keep39_of_pdf {c : Char} (h : keepCharPdf c = true) (h1 : c ≠ ' ')
    (h2 : c ≠ '-') : keepChar39 c = true :=
  char_cases_lt128
    (fun c => keepCharPdf c = true → c ≠ ' ' → c ≠ '-' → keepChar39 c = true)
    (by decide) c (keepCharPdf_ascii h) h h1 h2

theorem out_ne {c : Char} (h : isOutChar c = true) {d : Char}
    (hd : isOutChar d = false) : c ≠ d := by
  intro e
  rw [e, hd] at h
  cases h

/-! ## Helper lemmas about the underscore-collapsing loop -/

theorem replaceDoubleUnd_subset : ∀ l : List Char, replaceDoubleUnd l ⊆ l := by
  intro l
  induction l using replaceDoubleUnd.induct with
  | case1 c1 c2 rest h ih =>
    intro c hc
    rw [replaceDoubleUnd, if_pos h] at hc
    rcases List.mem_cons.mp hc with h1 | h2
    · have hc1 : c1 = '_' := by simpa using ((Bool.and_eq_true _ _).mp h).1
      subst h1
      simp [hc1]
    · have h3 := ih h2
      simp only [List.mem_cons] at h3 ⊢
      tauto
  | case2 c1 c2 rest h ih =>
    intro c hc
    rw [replaceDoubleUnd, if_neg h] at hc
    rcases List.mem_cons.mp hc with h1 | h2
    · simp [h1]
    · have h3 := ih h2
      simp only [List.mem_cons] at h3 ⊢
      tauto
  | case3 c => intro x hx; simpa [replaceDoubleUnd] using hx
  | case4 => intro x hx; simp [replaceDoubleUnd] at hx

theorem length_replaceDoubleUnd_le : ∀ l : List Char,
    (replaceDoubleUnd l).length ≤ l.length := by
  intro l
  induction l using replaceDoubleUnd.induct with
  | case1 c1 c2 rest h ih =>
    rw [replaceDoubleUnd, if_pos h]
    simp only [List.length_cons]
    omega
  | case2 c1 c2 rest h ih =>
    rw [replaceDoubleUnd, if_neg h]
    simp only [List.length_cons] at ih ⊢
    omega
  | case3 c => simp [replaceDoubleUnd]
  | case4 => simp [replaceDoubleUnd]

theorem length_replaceDoubleUnd_lt : ∀ l : List Char,
    containsDoubleUnd l = true → (replaceDoubleUnd l).length < l.length := by
  intro l
  induction l using replaceDoubleUnd.induct with
  | case1 c1 c2 rest h ih =>
    intro _
    rw [replaceDoubleUnd, if_pos h]
    have := length_replaceDoubleUnd_le rest
    simp only [List.length_cons]
    omega
  | case2 c1 c2 rest h ih =>
    intro hcd
    rw [containsDoubleUnd] at hcd
    rcases (Bool.or_eq_true _ _) ▸ hcd with h1 | h2
    · exact absurd h1 (by simpa using h)
    · rw [replaceDoubleUnd, if_neg h]
      have := ih h2
      simp only [List.length_cons] at this ⊢
      omega
  | case3 c => intro hcd; simp [containsDoubleUnd] at hcd
  | case4 => intro hcd; simp [containsDoubleUnd] at hcd

theorem whileReplaceDoubleUnd_no_double : ∀ (fuel : Nat) (s : List Char),
    s.length ≤ fuel → containsDoubleUnd (whileReplaceDoubleUnd fuel s) = false := by
  intro fuel
  induction fuel with
  | zero =>
    intro s hs
    have hnil : s = [] := List.eq_nil_of_length_eq_zero (Nat.le_zero.mp hs)
    subst hnil
    rfl
  | succ n ih =>
    intro s hs
    by_cases h : containsDoubleUnd s = true
    · rw [whileReplaceDoubleUnd, if_pos h]
      have hlt := length_replaceDoubleUnd_lt s h
      exact ih _ (by omega)
    · rw [whileReplaceDoubleUnd, if_neg h]
      simpa using h

theorem collapseUnd_no_double (s : List Char) :
    containsDoubleUnd (collapseUnd s) = false :=
  whileReplaceDoubleUnd_no_double s.length s le_rfl

theorem whileReplaceDoubleUnd_subset : ∀ (fuel : Nat) (s : List Char),
    whileReplaceDoubleUnd fuel s ⊆ s := by
  intro fuel
  induction fuel with
  | zero => intro s; exact fun c hc => hc
  | succ n ih =>
    intro s
    by_cases h : containsDoubleUnd s = true
    · rw [whileReplaceDoubleUnd, if_pos h]
      exact fun c hc => replaceDoubleUnd_subset s (ih _ hc)
    · rw [whileReplaceDoubleUnd, if_neg h]
      exact fun c hc => hc

theorem collapseUnd_subset (s : List Char) : collapseUnd s ⊆ s :=
  whileReplaceDoubleUnd_subset s.length s

theorem collapseUnd_eq_self {s : List Char} (h : containsDoubleUnd s = false) :
    collapseUnd s = s := by
  unfold collapseUnd
  cases hn : s.length with
  | zero => rfl
  | succ n => rw [whileReplaceDoubleUnd, if_neg (by simp [h])]

theorem containsDoubleUnd_iff_contig : ∀ l : List Char,
    containsDoubleUnd l = true ↔ ['_', '_'] <:+: l := by
  intro l
  induction l with
  | nil =>
    constructor
    · intro h; cases h
    · intro h; have := h.length_le; simp at this
  | cons a rest ih =>
    cases rest with
    | nil =>
      constructor
      · intro h; cases h
      · intro h; have := h.length_le; simp at this
    | cons b rest2 =>
      rw [containsDoubleUnd, List.infix_cons_iff]
      constructor
      · intro h
        rcases (Bool.or_eq_true _ _) ▸ h with h1 | h2
        · left
          have ha : a = '_' := by simpa using ((Bool.and_eq_true _ _).mp h1).1
          have hb : b = '_' := by simpa using ((Bool.and_eq_true _ _).mp h1).2
          rw [List.cons_prefix_cons, List.cons_prefix_cons]
          exact ⟨ha.symm, hb.symm, List.nil_prefix⟩
        · right
          exact (ih).mp h2
      · intro h
        rcases h with h1 | h2
        · rw [List.cons_prefix_cons, List.cons_prefix_cons] at h1
          rw [Bool.or_eq_true]
          left
          simp [← h1.1, ← h1.2.1]
        · rw [Bool.or_eq_true]
          right
          exact ih.mpr h2

theorem no_double_of_infix {l' l : List Char} (hinf : l' <:+: l)
    (h : containsDoubleUnd l = false) : containsDoubleUnd l' = false := by
  by_contra hc
  have hc2 : containsDoubleUnd l' = true := by
    cases hcv : containsDoubleUnd l' with
    | false => exact absurd hcv hc
    | true => rfl
  have := (containsDoubleUnd_iff_contig l).mpr
    (((containsDoubleUnd_iff_contig l').mp hc2).trans hinf)
  rw [this] at h
  cases h

/-! ## Helper lemmas about stripping -/

theorem dropWhile_head_not (p : Char → Bool) (l : List Char) :
    ∀ c, (l.dropWhile p).head? = some c → p c = false := by
  induction l with
  | nil => intro c hc; cases hc
  | cons a t ih =>
    intro c hc
    by_cases h : p a = true
    · rw [List.dropWhile_cons, if_pos h] at hc
      exact ih c hc
    · rw [List.dropWhile_cons, if_neg h] at hc
      have : a = c := by simpa using hc
      subst this
      simpa using h

theorem stripUnd_within (l : List Char) : stripUnd l <:+: l := by
  unfold stripUnd
  have h1 : (l.dropWhile (fun c => c == '_')) <:+ l := List.dropWhile_suffix _
  have h2 : ((l.dropWhile (fun c => c == '_')).reverse.dropWhile (fun c => c == '_'))
      <:+ (l.dropWhile (fun c => c == '_')).reverse := List.dropWhile_suffix _
  have h3 : ((l.dropWhile (fun c => c == '_')).reverse.dropWhile
      (fun c => c == '_')).reverse <+: (l.dropWhile (fun c => c == '_')) :=
    List.reverse_suffix.mp (by simpa using h2)
  exact h3.isInfix.trans h1.isInfix

theorem stripUnd_head {l : List Char} :
    ∀ c, (stripUnd l).head? = some c → c ≠ '_' := by
  intro c hc
  unfold stripUnd at hc
  rw [List.head?_reverse] at hc
  obtain ⟨t, ht⟩ := List.dropWhile_suffix
    (l := (l.dropWhile (fun c => c == '_')).reverse) (fun c => c == '_')
  have hgl : ((l.dropWhile (fun c => c == '_')).reverse).getLast? = some c := by
    rw [← ht, List.getLast?_append, hc]
    rfl
  rw [List.getLast?_reverse] at hgl
  have := dropWhile_head_not (fun c => c == '_') l c hgl
  simpa using this

theorem stripUnd_getLast {l : List Char} :
    ∀ c, (stripUnd l).getLast? = some c → c ≠ '_' := by
  intro c hc
  unfold stripUnd at hc
  rw [List.getLast?_reverse] at hc
  have := dropWhile_head_not (fun c => c == '_') _ c hc
  simpa using this

theorem dropWhile_eq_self_of_head (p : Char → Bool) (l : List Char)
    (h : ∀ c, l.head? = some c → p c = false) : l.dropWhile p = l := by
  cases l with
  | nil => rfl
  | cons a t =>
    rw [List.dropWhile_cons, if_neg]
    simp [h a rfl]

theorem stripUnd_eq_self {l : List Char}
    (h1 : ∀ c, l.head? = some c → c ≠ '_')
    (h2 : ∀ c, l.getLast? = some c → c ≠ '_') : stripUnd l = l := by
  unfold stripUnd
  rw [dropWhile_eq_self_of_head _ l
    (by intro c hc; simpa using h1 c hc)]
  rw [dropWhile_eq_self_of_head _ l.reverse
    (by intro c hc; rw [List.head?_reverse] at hc; simpa using h2 c hc)]
  exact List.reverse_reverse l

theorem no_double_map_toLower : ∀ y : List Char,
    (∀ c ∈ y, keepChar39 c = true) → containsDoubleUnd y = false →
    containsDoubleUnd (y.map Char.toLower) = false := by
  intro y
  induction y with
  | nil => intro _ _; rfl
  | cons a rest ih =>
    intro hall hnd
    cases rest with
    | nil => rfl
    | cons b rest2 =>
      rw [List.map_cons, List.map_cons, containsDoubleUnd]
      rw [containsDoubleUnd] at hnd
      have hparts := Bool.or_eq_false_iff.mp hnd
      have ha := hall a (by simp)
      have hb := hall b (by simp [List.mem_cons])
      have ih2 := ih (fun c hc => hall c (List.mem_cons_of_mem a hc)) hparts.2
      rw [List.map_cons] at ih2
      apply Bool.or_eq_false_iff.mpr
      refine ⟨?_, ih2⟩
      apply Bool.and_eq_false_iff.mpr
      by_cases hla : Char.toLower a = '_'
      · by_cases hlb : Char.toLower b = '_'
        · exfalso
          have ha2 : a = '_' := (toLower_eq_und ha).mp hla
          have hb2 : b = '_' := (toLower_eq_und hb).mp hlb
          rw [ha2, hb2] at hparts
          simpa using hparts.1
        · right; simpa using hlb
      · left; simpa using hla

/-- The common tail of both sanitizers: given that every character entering
the collapse/strip/lowercase stage is an ASCII alphanumeric or underscore,
the output consists of lowercase ASCII alphanumerics and underscores, has no
leading or trailing underscore, and has no two consecutive underscores. -/
theorem sanitizeTail_spec (c3 : List Char)
    (hall : ∀ c ∈ c3, keepChar39 c = true) :
    (∀ c ∈ (stripUnd (collapseUnd c3)).map Char.toLower, isOutChar c = true) ∧
    containsDoubleUnd ((stripUnd (collapseUnd c3)).map Char.toLower) = false ∧
    (∀ c, ((stripUnd (collapseUnd c3)).map Char.toLower).head? = some c → c ≠ '_') ∧
    (∀ c, ((stripUnd (collapseUnd c3)).map Char.toLower).getLast? = some c → c ≠ '_') := by
  have hysub : stripUnd (collapseUnd c3) ⊆ c3 :=
    fun c hc => collapseUnd_subset c3 ((stripUnd_within _).subset hc)
  have hyall : ∀ c ∈ stripUnd (collapseUnd c3), keepChar39 c = true :=
    fun c hc => hall c (hysub hc)
  have hynd : containsDoubleUnd (stripUnd (collapseUnd c3)) = false :=
    no_double_of_infix (stripUnd_within _) (collapseUnd_no_double c3)
  refine ⟨?_, ?_, ?_, ?_⟩
  · intro c hc
    rcases List.mem_map.mp hc with ⟨c', hc', rfl⟩
    exact toLower_isOut (hyall c' hc')
  · exact no_double_map_toLower _ hyall hynd
  · intro c hc
    rw [List.head?_map] at hc
    cases hy2 : (stripUnd (collapseUnd c3)).head? with
    | none => rw [hy2] at hc; cases hc
    | some c' =>
      rw [hy2] at hc
      have hcc : c = Char.toLower c' := by simpa using hc.symm
      have hne := stripUnd_head c' hy2
      have hmem : c' ∈ stripUnd (collapseUnd c3) := by
        cases hyv : stripUnd (collapseUnd c3) with
        | nil => rw [hyv] at hy2; cases hy2
        | cons x xs =>
          rw [hyv] at hy2
          have : x = c' := by simpa using hy2
          simp [hyv, this]
      intro he
      exact hne ((toLower_eq_und (hyall c' hmem)).mp (hcc ▸ he))
  · intro c hc
    rw [List.getLast?_map] at hc
    cases hy2 : (stripUnd (collapseUnd c3)).getLast? with
    | none => rw [hy2] at hc; cases hc
    | some c' =>
      rw [hy2] at hc
      have hcc : c = Char.toLower c' := by simpa using hc.symm
      have hne := stripUnd_getLast c' hy2
      have hmem : c' ∈ stripUnd (collapseUnd c3) := by
        obtain ⟨hne2, hge⟩ := List.mem_getLast?_eq_getLast (Option.mem_def.mpr hy2)
        exact hge ▸ List.getLast_mem hne2
      intro he
      exact hne ((toLower_eq_und (hyall c' hmem)).mp (hcc ▸ he))

theorem map39_all (l : List Char) :
    ∀ c ∈ l.map (fun c => if keepChar39 c then c else '_'), keepChar39 c = true := by
  intro c hc
  rcases List.mem_map.mp hc with ⟨c', _, rfl⟩
  by_cases h : keepChar39 c' = true
  · rw [if_pos h]; exact h
  · rw [if_neg h]; decide

theorem pdf_stage_all (l : List Char) :
    ∀ c ∈ pyReplaceChar '-' '_' (pyReplaceChar ' ' '_'
        (l.map (fun c => if keepCharPdf c then c else '_'))),
      keepChar39 c = true := by
  intro c hc
  unfold pyReplaceChar at hc
  rcases List.mem_map.mp hc with ⟨c1, hc1, rfl⟩
  rcases List.mem_map.mp hc1 with ⟨c2, hc2, rfl⟩
  rcases List.mem_map.mp hc2 with ⟨c0, _, rfl⟩
  by_cases h0 : keepCharPdf c0 = true
  · by_cases hsp : c0 = ' '
    · subst hsp; decide
    · by_cases hhy : c0 = '-'
      · subst hhy; decide
      · rw [if_pos h0]
        rw [if_neg (show ¬((c0 == ' ') = true) by simpa using hsp)]
        rw [if_neg (show ¬((c0 == '-') = true) by simpa using hhy)]
        exact keep39_of_pdf h0 hsp hhy
  · rw [if_neg h0]
    decide

/-- Properties of the raw output of `sanitize_id`. -/
theorem sanitizeCore_spec (l : List Char) :
    (∀ c ∈ sanitizeCore l, isOutChar c = true) ∧
    containsDoubleUnd (sanitizeCore l) = false ∧
    (∀ c, (sanitizeCore l).head? = some c → c ≠ '_') ∧
    (∀ c, (sanitizeCore l).getLast? = some c → c ≠ '_') :=
  sanitizeTail_spec
    ((pyReplaceChar '-' '_' (pyDeleteChar ']' (pyDeleteChar '['
        (pyDeleteChar ')' (pyDeleteChar '(' (pyReplaceChar ' ' '_'
          (if endsWithPdf l then l.take (l.length - 4) else l))))))).map
      (fun c => if keepChar39 c then c else '_'))
    (map39_all _)

/-- Properties of the raw output of `sanitize_pdf_id`. -/
theorem sanitizePdfCore_spec (l : List Char) :
    (∀ c ∈ sanitizePdfCore l, isOutChar c = true) ∧
    containsDoubleUnd (sanitizePdfCore l) = false ∧
    (∀ c, (sanitizePdfCore l).head? = some c → c ≠ '_') ∧
    (∀ c, (sanitizePdfCore l).getLast? = some c → c ≠ '_') :=
  sanitizeTail_spec
    (pyReplaceChar '-' '_' (pyReplaceChar ' ' '_'
      ((pyDeleteChar ']' (pyDeleteChar '[' (pyDeleteChar ')'
        (pyDeleteChar '(' (pyStemCore l))))).map
        (fun c => if keepCharPdf c then c else '_'))))
    (pdf_stage_all _)

theorem sanitize_id_data (s : String) : (sanitize_id s).data = sanitizeCore s.data := by
  unfold sanitize_id
  rfl

theorem sanitize_pdf_id_data (s : String) :
    (sanitize_pdf_id s).data = sanitizePdfCore s.data := by
  unfold sanitize_pdf_id
  rfl

/-- C10: for every input string, the output of the identifier sanitizers
(`sanitize_id` of `transform_to_pinecone_format.py` and `sanitize_pdf_id` of
`upsert_to_pinecone.py`) contains only lowercase ASCII letters, ASCII digits
and underscores, never begins or ends with an underscore, and never contains
two consecutive underscores. -/
theorem sanitize_output_invariant (s : String) :
    ((∀ c ∈ (sanitize_id s).data, isOutChar c = true) ∧
     (∀ c, (sanitize_id s).data.head? = some c → c ≠ '_') ∧
     (∀ c, (sanitize_id s).data.getLast? = some c → c ≠ '_') ∧
     containsDoubleUnd (sanitize_id s).data = false) ∧
    ((∀ c ∈ (sanitize_pdf_id s).data, isOutChar c = true) ∧
     (∀ c, (sanitize_pdf_id s).data.head? = some c → c ≠ '_') ∧
     (∀ c, (sanitize_pdf_id s).data.getLast? = some c → c ≠ '_') ∧
     containsDoubleUnd (sanitize_pdf_id s).data = false) := by
  obtain ⟨h1, h2, h3, h4⟩ := sanitizeCore_spec s.data
  obtain ⟨g1, g2, g3, g4⟩ := sanitizePdfCore_spec s.data
  rw [sanitize_id_data, sanitize_pdf_id_data]
  exact ⟨⟨h1, h3, h4, h2⟩, ⟨g1, g3, g4, g2⟩⟩

/-! ## Helper lemmas for idempotence -/

theorem pyReplaceChar_eq_self {old new : Char} {l : List Char}
    (h : ∀ c ∈ l, c ≠ old) : pyReplaceChar old new l = l := by
  unfold pyReplaceChar
  rw [List.map_congr_left (g := id) ?_, List.map_id]
  intro a ha
  rw [if_neg (by simpa using h a ha)]
  rfl

theorem pyDeleteChar_eq_self {old : Char} {l : List Char}
    (h : ∀ c ∈ l, c ≠ old) : pyDeleteChar old l = l := by
  unfold pyDeleteChar
  rw [List.filter_eq_self]
  intro a ha
  simpa using h a ha

theorem map39_eq_self {l : List Char} (h : ∀ c ∈ l, keepChar39 c = true) :
    l.map (fun c => if keepChar39 c then c else '_') = l := by
  rw [List.map_congr_left (g := id) ?_, List.map_id]
  intro a ha
  rw [if_pos (h a ha)]
  rfl

theorem map_toLower_eq_self {l : List Char} (h : ∀ c ∈ l, isOutChar c = true) :
    l.map Char.toLower = l := by
  rw [List.map_congr_left (g := id) ?_, List.map_id]
  intro a ha
  exact toLower_fix (h a ha)

theorem endsWithPdf_eq_false {l : List Char} (h : '.' ∉ l) :
    endsWithPdf l = false := by
  cases he : endsWithPdf l with
  | false => rfl
  | true =>
    exfalso
    have h2 := (Bool.and_eq_true _ _).mp he
    have h3 : l.drop (l.length - 4) = ['.', 'p', 'd', 'f'] := by
      have := h2.2
      exact eq_of_beq this
    apply h
    apply List.drop_subset (l.length - 4) l
    rw [h3]
    simp

/-- `sanitize_id` fixes any string that already has the output shape. -/
theorem sanitizeCore_fix {y : List Char}
    (hall : ∀ c ∈ y, isOutChar c = true)
    (hnd : containsDoubleUnd y = false)
    (hh : ∀ c, y.head? = some c → c ≠ '_')
    (hl : ∀ c, y.getLast? = some c → c ≠ '_') : sanitizeCore y = y := by
  have hdot : '.' ∉ y := fun hm => (out_ne (hall _ hm) (d := '.') (by decide)) rfl
  have hends : endsWithPdf y = false := endsWithPdf_eq_false hdot
  have e0 : (if endsWithPdf y then y.take (y.length - 4) else y) = y := by
    rw [hends]
    simp
  have e1 : pyReplaceChar ' ' '_' y = y :=
    pyReplaceChar_eq_self (fun c hc => out_ne (hall c hc) (by decide))
  have e2 : pyDeleteChar '(' y = y :=
    pyDeleteChar_eq_self (fun c hc => out_ne (hall c hc) (by decide))
  have e3 : pyDeleteChar ')' y = y :=
    pyDeleteChar_eq_self (fun c hc => out_ne (hall c hc) (by decide))
  have e4 : pyDeleteChar '[' y = y :=
    pyDeleteChar_eq_self (fun c hc => out_ne (hall c hc) (by decide))
  have e5 : pyDeleteChar ']' y = y :=
    pyDeleteChar_eq_self (fun c hc => out_ne (hall c hc) (by decide))
  have e6 : pyReplaceChar '-' '_' y = y :=
    pyReplaceChar_eq_self (fun c hc => out_ne (hall c hc) (by decide))
  have e7 : y.map (fun c => if keepChar39 c then c else '_') = y :=
    map39_eq_self (fun c hc => keep39_of_out (hall c hc))
  have e8 : collapseUnd y = y := collapseUnd_eq_self hnd
  have e9 : stripUnd y = y := stripUnd_eq_self hh hl
  show (stripUnd (collapseUnd
    ((pyReplaceChar '-' '_' (pyDeleteChar ']' (pyDeleteChar '['
      (pyDeleteChar ')' (pyDeleteChar '(' (pyReplaceChar ' ' '_'
        (if endsWithPdf y then y.take (y.length - 4) else y))))))).map
      (fun c => if keepChar39 c then c else '_')))).map Char.toLower = y
  rw [e0, e1, e2, e3, e4, e5, e6, e7, e8, e9]
  exact map_toLower_eq_self hall

/-- C9: the identifier sanitizer is idempotent — in fact for every input
string, not only ASCII-safe ones. -/
theorem sanitize_id_idempotent (s : String) :
    sanitize_id (sanitize_id s) = sanitize_id s := by
  obtain ⟨h1, h2, h3, h4⟩ := sanitizeCore_spec s.data
  unfold sanitize_id
  have e : ({ data := sanitizeCore s.data } : String).data = sanitizeCore s.data := rfl
  rw [e, sanitizeCore_fix h1 h2 h3 h4]

/-! ## C4: what the replacement stage actually does -/

theorem pyReplaceChar_cons_ne {o n c : Char} (h : c ≠ o) (l : List Char) :
    pyReplaceChar o n (c :: l) = c :: pyReplaceChar o n l := by
  unfold pyReplaceChar
  rw [List.map_cons, if_neg (by simpa using h)]

theorem pyDeleteChar_cons_ne {o c : Char} (h : c ≠ o) (l : List Char) :
    pyDeleteChar o (c :: l) = c :: pyDeleteChar o l := by
  unfold pyDeleteChar
  rw [List.filter_cons, if_pos (by simpa using h)]

theorem sanitize_stage_flatMap : ∀ l : List Char,
    (pyReplaceChar '-' '_' (pyDeleteChar ']' (pyDeleteChar '['
      (pyDeleteChar ')' (pyDeleteChar '(' (pyReplaceChar ' ' '_' l)))))).map
      (fun c => if keepChar39 c then c else '_') = l.flatMap sanitizeCharStep := by
  intro l
  induction l with
  | nil => rfl
  | cons c rest ih =>
    by_cases h1 : c = '('
    · subst h1; simp +decide [pyReplaceChar, pyDeleteChar, sanitizeCharStep] at ih ⊢; exact ih
    · by_cases h2 : c = ')'
      · subst h2; simp +decide [pyReplaceChar, pyDeleteChar, sanitizeCharStep] at ih ⊢; exact ih
      · by_cases h3 : c = '['
        · subst h3; simp +decide [pyReplaceChar, pyDeleteChar, sanitizeCharStep] at ih ⊢; exact ih
        · by_cases h4 : c = ']'
          · subst h4; simp +decide [pyReplaceChar, pyDeleteChar, sanitizeCharStep] at ih ⊢; exact ih
          · by_cases h5 : c = ' '
            · subst h5; simp +decide [pyReplaceChar, pyDeleteChar, sanitizeCharStep] at ih ⊢; exact ih
            · by_cases h6 : c = '-'
              · subst h6; simp +decide [pyReplaceChar, pyDeleteChar, sanitizeCharStep] at ih ⊢
                exact ih
              · rw [List.flatMap_cons]
                rw [pyReplaceChar_cons_ne h5, pyDeleteChar_cons_ne h1,
                  pyDeleteChar_cons_ne h2, pyDeleteChar_cons_ne h3,
                  pyDeleteChar_cons_ne h4, pyReplaceChar_cons_ne h6,
                  List.map_cons, ih]
                rw [show sanitizeCharStep c = [if keepChar39 c then c else '_'] from by
                  unfold sanitizeCharStep
                  rw [if_neg (by simp [h1, h2, h3, h4]), if_neg (by simp [h5, h6])]
                  by_cases hk : keepChar39 c = true
                  · rw [if_pos hk, if_pos hk]
                  · rw [if_neg hk, if_neg hk]]
                rfl

theorem sanitizeCore_eq_amended (l : List Char) :
    sanitizeCore l = sanitizeAmendedCore l := by
  show (stripUnd (collapseUnd
    ((pyReplaceChar '-' '_' (pyDeleteChar ']' (pyDeleteChar '['
      (pyDeleteChar ')' (pyDeleteChar '(' (pyReplaceChar ' ' '_'
        (if endsWithPdf l then l.take (l.length - 4) else l))))))).map
      (fun c => if keepChar39 c then c else '_')))).map Char.toLower =
    (stripUnd (collapseUnd
      ((if endsWithPdf l then l.take (l.length - 4) else l).flatMap
        sanitizeCharStep))).map Char.toLower
  rw [sanitize_stage_flatMap]

/-- C4 counterexample: on `"a(b"` the code deletes the parenthesis outright
(`sanitize_id "a(b" = "ab"`), while the claimed behaviour — replace `(` by an
underscore before collapsing/stripping/lowercasing — would give `"a_b"`. -/
theorem sanitize_id_bracket_counterexample :
    sanitize_id "a(b" = "ab" ∧ sanitizeClaim "a(b" = "a_b" := by decide

/-- C4 amended: `sanitize_id` replaces space and hyphen by underscore,
deletes parentheses and square brackets outright, keeps ASCII alphanumerics
and underscore, and replaces every other character (all other whitespace and
all non-ASCII text included) by underscore — before collapsing underscore
runs, stripping edge underscores and lowercasing. -/
theorem sanitize_id_charwise (s : String) :
    sanitize_id s = String.mk (sanitizeAmendedCore s.data) := by
  unfold sanitize_id
  exact congrArg String.mk (sanitizeCore_eq_amended s.data)

/-! ## C8 and C6: the record builder -/

instance {ε α : Type} [DecidableEq ε] [DecidableEq α] : DecidableEq (Except ε α)
  | .error e1, .error e2 =>
    if h : e1 = e2 then isTrue (by rw [h])
    else isFalse (by intro he; cases he; exact h rfl)
  | .error _, .ok _ => isFalse (by intro h; cases h)
  | .ok _, .error _ => isFalse (by intro h; cases h)
  | .ok a1, .ok a2 =>
    if h : a1 = a2 then isTrue (by rw [h])
    else isFalse (by intro he; cases he; exact h rfl)

/-- The end-to-end example document of the spec: title
`"DB (Insurance) 2025.pdf"` with two slides numbered 1 and 2. -/
def deckC8 : DeckMeta :=
  { filename := "DB (Insurance) 2025.pdf", company_name := some "DB",
    deck_industry := some "insurance", executive_summary := some "es",
    total_pages := some 2 }

def slidesC8 : List SlideData :=
  [ { slide_number := some 1, slide_summary := some "s1", keywords := some ["k1"] }
  , { slide_number := some 2, slide_summary := some "s2", keywords := some ["k2"] } ]

/-- C8: the example document sanitizes to `db_insurance_2025` and the record
builder emits exactly the ids `db_insurance_2025_meta`,
`db_insurance_2025_slide_001`, `db_insurance_2025_slide_002`, in order. -/
theorem transform_example_ids :
    sanitize_id "DB (Insurance) 2025.pdf" = "db_insurance_2025" ∧
    (transform_metadata_to_records deckC8 slidesC8 "t").toOption.map
      (fun p => p.1.map (fun r => dget r "_id")) =
      some [some (.str "db_insurance_2025_meta"),
            some (.str "db_insurance_2025_slide_001"),
            some (.str "db_insurance_2025_slide_002")] := by
  decide

theorem mapM_slideRecord_err (pdf_id : String) (deck : DeckMeta) :
    ∀ slides : List SlideData, (∃ s ∈ slides, s.slide_number = none) →
      slides.mapM (slideRecord pdf_id deck) =
        Except.error (PyError.keyError "slide_number") := by
  intro slides
  induction slides with
  | nil => intro h; simp at h
  | cons s rest ih =>
    intro h
    cases hsv : s.slide_number with
    | none =>
      rw [List.mapM_cons,
        show slideRecord pdf_id deck s = .error (.keyError "slide_number") from by
          unfold slideRecord; rw [hsv]]
      rfl
    | some n =>
      have hrest : ∃ t ∈ rest, t.slide_number = none := by
        obtain ⟨t, ht, hn⟩ := h
        rcases List.mem_cons.mp ht with he | hm2
        · rw [he, hsv] at hn; cases hn
        · exact ⟨t, hm2, hn⟩
      obtain ⟨r, hr⟩ : ∃ r, slideRecord pdf_id deck s = .ok r :=
        ⟨_, by unfold slideRecord; rw [hsv]⟩
      rw [List.mapM_cons, hr, ih hrest]
      rfl

/-- C6 amended: when any slide of the document lacks a `slide_number` key,
`transform_metadata_to_records` raises the built-in `KeyError('slide_number')`
(the repository defines no `MalformedInputError`), and no record list is
produced for the document. -/
theorem transform_missing_slide_number_fails (deck : DeckMeta)
    (slides : List SlideData) (now_id : String)
    (hbad : ∃ s ∈ slides, s.slide_number = none) :
    transform_metadata_to_records deck slides now_id =
      Except.error (PyError.keyError "slide_number") := by
  unfold transform_metadata_to_records
  dsimp only
  rw [mapM_slideRecord_err _ _ slides hbad]
  rfl

/-- The concrete failing input for C6: one slide with a summary but no
`slide_number`. -/
def slidesC6 : List SlideData := [{ slide_number := none, slide_summary := some "s" }]

/-- C6 counterexample: on a document whose slide lacks `slide_number`, the
record builder raises the built-in `KeyError`, not a `MalformedInputError`
(no such exception class exists anywhere in the repository), and returns no
record list. -/
theorem transform_missing_slide_number_counterexample :
    transform_metadata_to_records { filename := "x.pdf" } slidesC6 "t" =
      Except.error (PyError.keyError "slide_number") := by
  decide

/-- Witness for `transform_missing_slide_number_fails`. -/
theorem transform_missing_slide_number_witness :
    transform_metadata_to_records { filename := "y.pdf" } slidesC6 "w" =
      Except.error (PyError.keyError "slide_number") :=
  transform_missing_slide_number_fails { filename := "y.pdf" } slidesC6 "w"
    ⟨{ slide_number := none, slide_summary := some "s" }, by simp [slidesC6], rfl⟩

/-! ## C3: what the validators actually enforce -/

set_option maxHeartbeats 3200000 in
theorem recordFailures_nil_iff (idx : Nat) (r : PyDict) :
    recordFailures idx r = [] ↔ goodRecord r = true := by
  unfold recordFailures goodRecord
  cases h1 : REQUIRED_FIELDS.all (fun k => hasKey r k) <;>
  cases h2 : pyTruthy (dget r "_id") <;>
  cases h3 : contentOkPR r <;>
  cases h4 : typeOkPR r <;>
  cases h5 : dget r "type" == some (.str "slide") <;>
  cases h6 : hasKey r "slide_number" <;>
  cases h7 : hasKey r "keywords" <;>
  simp [h1, h2, h3, h4, h5, h6, h7]

set_option maxHeartbeats 1600000 in
theorem validate_pinecone_records_iff (records : List PyDict) :
    (validate_pinecone_records records).1 = true ↔
      ∀ r ∈ records, goodRecord r = true := by
  unfold validate_pinecone_records
  rw [List.isEmpty_iff, List.flatten_eq_nil_iff]
  constructor
  · intro h r hr
    obtain ⟨p, hp, he⟩ : ∃ p ∈ records.enum, p.2 = r := by
      have hmem : r ∈ records.enum.map Prod.snd := by
        rw [List.enum_map_snd]; exact hr
      rcases List.mem_map.mp hmem with ⟨p, hp, he⟩
      exact ⟨p, hp, he⟩
    have hnil : recordFailures p.1 p.2 = [] :=
      h (recordFailures p.1 p.2)
        (List.mem_map_of_mem (fun q => recordFailures q.1 q.2) hp)
    rw [← he]
    exact (recordFailures_nil_iff p.1 p.2).mp hnil
  · intro h l hl
    rcases List.mem_map.mp hl with ⟨p, hp, rfl⟩
    have hrm : p.2 ∈ records := by
      have hmem : p.2 ∈ records.enum.map Prod.snd := List.mem_map_of_mem Prod.snd hp
      rwa [List.enum_map_snd] at hmem
    exact (recordFailures_nil_iff p.1 p.2).mpr (h p.2 hrm)

theorem validate_count_aux : ∀ (records : List PyDict) (n : Nat),
    (records.filter (fun r => !goodRecord r)).length ≤
      ((records.enumFrom n).map (fun p => recordFailures p.1 p.2)).flatten.length := by
  intro records
  induction records with
  | nil => intro n; simp
  | cons r rest ih =>
    intro n
    rw [List.enumFrom_cons, List.map_cons, List.flatten_cons, List.length_append,
      List.filter_cons]
    by_cases hg : goodRecord r = true
    · rw [if_neg (by simp [hg])]
      exact Nat.le_trans (ih (n + 1)) (Nat.le_add_left _ _)
    · rw [if_pos (by simp [Bool.eq_false_iff.mpr hg])]
      have hfail : recordFailures n r ≠ [] := fun he =>
        hg ((recordFailures_nil_iff n r).mp he)
      have h1 : 1 ≤ (recordFailures n r).length :=
        Nat.succ_le_of_lt (List.length_pos.mpr hfail)
      have h2 := ih (n + 1)
      simp only [List.length_cons]
      omega

theorem validate_record_iff (r : PyDict) :
    (validate_record r).1 = true ↔ goodRecordT r = true := by
  unfold validate_record goodRecordT
  cases h1 : hasKey r "_id" <;> cases h2 : hasKey r "content" <;>
    simp only [h1, h2, Bool.not_true, Bool.not_false]
  · simp
  · simp
  · simp
  · cases h3 : dget r "content" with
    | none => simp
    | some v =>
      cases v with
      | str s =>
        cases h4 : s == "" <;> cases h5 : (pyStripWs s.data).length == 0 <;>
          simp [h4, h5]
      | int n => simp
      | list l => simp

/-- A slide record that is fully populated except that its `content` is a
single space (truthy, but empty after `strip()`). -/
def rC3 : PyDict :=
  [ ("_id", .str "x_slide_001"), ("content", .str " "), ("type", .str "slide")
  , ("pdf_id", .str "x"), ("pdf_title", .str "x"), ("company", .str "c")
  , ("industry", .str "i"), ("slide_number", .int 1), ("keywords", .str "k") ]

/-- C3 counterexample: `validate_pinecone_records` accepts a record whose
`content` is whitespace-only (content is checked for truthiness, never
trimmed), so validation does not require content to be non-empty after
trimming as the claim states. -/
theorem validate_whitespace_content_passes :
    dget rC3 "content" = some (.str " ") ∧
    pyStripWs " ".data = [] ∧
    (validate_pinecone_records [rC3]).1 = true ∧
    (validate_pinecone_records [rC3]).2 = [] := by
  decide

/-- C3 amended: `validate_pinecone_records` passes a record sequence iff
every record has the seven required keys, a truthy `_id`, a `content` that
is a non-empty string (whitespace-only passes — no trimming), a `type` among
`deck_metadata`/`slide`, and, for slides, `slide_number` and `keywords`
present; it reports at least one reason per offending record without
stopping at the first failure, and a `true` verdict is required for upload.
The separate `validate_record` of the transform script checks only `_id`
presence and trimmed non-empty string content (no type or slide checks). -/
theorem validation_characterized :
    (∀ records : List PyDict,
        ((validate_pinecone_records records).1 = true ↔
          ∀ r ∈ records, goodRecord r = true)) ∧
    (∀ records : List PyDict,
        (records.filter (fun r => !goodRecord r)).length ≤
          (validate_pinecone_records records).2.length) ∧
    (∀ r : PyDict, (validate_record r).1 = true ↔ goodRecordT r = true) := by
  refine ⟨validate_pinecone_records_iff, ?_, validate_record_iff⟩
  intro records
  have h := validate_count_aux records 0
  simpa [validate_pinecone_records, List.enum] using h

/-! ## C5 and C7: the batcher -/

/-- The batch list `create_batches` produces for a non-zero `batch_size`. -/
def batchesPos (records : List α) (k : Int) : List (List α) :=
  (pyRange 0 records.length k).map (fun i => pySlice records i (i + k))

theorem create_batches_eq {records : List α} {k : Int} (h : k ≠ 0) :
    create_batches records k = .ok (batchesPos records k) := by
  unfold create_batches batchesPos
  rw [if_neg h]

theorem pyRange_zero_len (k : Int) (hk : 0 < k) : pyRange 0 0 k = [] := by
  unfold pyRange
  rw [if_pos hk]
  rw [show (0 - 0 + k - 1) / k = 0 from Int.ediv_eq_zero_of_lt (by omega) (by omega)]
  rfl

theorem batchesPos_nil (k : Int) (hk : 0 < k) : batchesPos ([] : List α) k = [] := by
  unfold batchesPos
  rw [show (([] : List α).length : Int) = 0 by simp, pyRange_zero_len k hk]
  rfl

/-- Unfolding step for the batch list: one batch of `k` records, then the
batches of the rest. -/
theorem batchesPos_cons (records : List α) (k : Int) (hk : 0 < k)
    (hr : records ≠ []) :
    batchesPos records k
      = records.take k.toNat :: batchesPos (records.drop k.toNat) k := by
  have hlen1 : 1 ≤ records.length := List.length_pos.mpr hr
  have hkt1 : 1 ≤ k.toNat := by omega
  unfold batchesPos pyRange
  rw [if_pos hk, if_pos hk]
  have hcount : ((records.length : Int) - 0 + k - 1) / k
      = ((records.length : Int) - 1) / k + 1 := by
    rw [show (records.length : Int) - 0 + k - 1 = ((records.length : Int) - 1) + 1 * k by ring]
    rw [Int.add_mul_ediv_right _ _ (by omega)]
  have hq0 : 0 ≤ ((records.length : Int) - 1) / k :=
    Int.ediv_nonneg (by omega) (by omega)
  have hcount2 : (((records.length : Int) - 0 + k - 1) / k).toNat
      = (((records.length : Int) - 1) / k).toNat + 1 := by
    rw [hcount]; omega
  rw [hcount2, List.range_succ_eq_map, List.map_cons, List.map_cons, List.map_map,
    List.map_map]
  have hdroplen : (((records.drop k.toNat).length : Int) - 0 + k - 1) / k
      = ((records.length : Int) - 1) / k := by
    rw [List.length_drop]
    by_cases hge : k.toNat ≤ records.length
    · rw [show (((records.length - k.toNat : Nat)) : Int)
          = (records.length : Int) - k by omega]
      rw [show (records.length : Int) - k - 0 + k - 1 = (records.length : Int) - 1 by ring]
    · rw [show ((records.length - k.toNat : Nat) : Int) = 0 by omega]
      rw [show (0 : Int) - 0 + k - 1 = k - 1 by ring]
      rw [Int.ediv_eq_zero_of_lt (by omega) (by omega)]
      rw [Int.ediv_eq_zero_of_lt (by omega) (by omega)]
  rw [hdroplen]
  refine congrArg₂ List.cons ?_ ?_
  · unfold pySlice
    simp
  · rw [List.map_map]
    refine List.map_congr_left ?_
    intro j hj
    simp only [Function.comp_apply]
    unfold pySlice
    have hjnn : (0 : Int) ≤ k * (j : Int) := by positivity
    have hsucc : ((Nat.succ j : Nat) : Int) = (j : Int) + 1 := by omega
    rw [hsucc]
    have e1 : ((0 : Int) + k * ((j : Int) + 1)).toNat = k.toNat + (k * (j : Int)).toNat := by
      have h2 : (0 : Int) + k * ((j : Int) + 1) = k * (j : Int) + k := by ring
      omega
    have e2 : ((0 : Int) + k * ((j : Int) + 1) + k).toNat
        = k.toNat + (k * (j : Int) + k).toNat := by
      have h2 : (0 : Int) + k * ((j : Int) + 1) + k = (k * (j : Int) + k) + k := by ring
      omega
    have e3 : ((0 : Int) + k * (j : Int)).toNat = (k * (j : Int)).toNat := by omega
    have e4 : ((0 : Int) + k * (j : Int) + k).toNat = (k * (j : Int) + k).toNat := by omega
    rw [e1, e2, e3, e4]
    rw [show (records.drop k.toNat).take ((k * (j : Int) + k).toNat)
        = (records.take (k.toNat + (k * (j : Int) + k).toNat)).drop k.toNat from by
      rw [List.drop_take]
      congr 1
      omega]
    rw [List.drop_drop]

theorem batchesPos_flatten (k : Int) (hk : 0 < k) :
    ∀ (n : Nat) (records : List α), records.length ≤ n →
      (batchesPos records k).flatten = records := by
  intro n
  induction n with
  | zero =>
    intro records h
    have hnil : records = [] := List.eq_nil_of_length_eq_zero (Nat.le_zero.mp h)
    subst hnil
    rw [batchesPos_nil k hk]
    rfl
  | succ n ih =>
    intro records h
    by_cases hr : records = []
    · subst hr; rw [batchesPos_nil k hk]; rfl
    · rw [batchesPos_cons records k hk hr, List.flatten_cons]
      have hkt1 : 1 ≤ k.toNat := by omega
      have hlen1 : 1 ≤ records.length := List.length_pos.mpr hr
      rw [ih (records.drop k.toNat) (by rw [List.length_drop]; omega)]
      exact List.take_append_drop _ _

theorem batchesPos_length_le (k : Int) (hk : 0 < k) :
    ∀ (n : Nat) (records : List α), records.length ≤ n →
      ∀ b ∈ batchesPos records k, b.length ≤ k.toNat := by
  intro n
  induction n with
  | zero =>
    intro records h b hb
    have hnil : records = [] := List.eq_nil_of_length_eq_zero (Nat.le_zero.mp h)
    subst hnil
    rw [batchesPos_nil k hk] at hb
    cases hb
  | succ n ih =>
    intro records h b hb
    by_cases hr : records = []
    · subst hr; rw [batchesPos_nil k hk] at hb; cases hb
    · rw [batchesPos_cons records k hk hr] at hb
      have hkt1 : 1 ≤ k.toNat := by omega
      have hlen1 : 1 ≤ records.length := List.length_pos.mpr hr
      rcases List.mem_cons.mp hb with hbe | hb2
      · rw [hbe, List.length_take]; omega
      · exact ih (records.drop k.toNat) (by rw [List.length_drop]; omega) b hb2

theorem batchesPos_dropLast_eq (k : Int) (hk : 0 < k) :
    ∀ (n : Nat) (records : List α), records.length ≤ n →
      ∀ b ∈ (batchesPos records k).dropLast, b.length = k.toNat := by
  intro n
  induction n with
  | zero =>
    intro records h b hb
    have hnil : records = [] := List.eq_nil_of_length_eq_zero (Nat.le_zero.mp h)
    subst hnil
    rw [batchesPos_nil k hk] at hb
    cases hb
  | succ n ih =>
    intro records h b hb
    by_cases hr : records = []
    · subst hr; rw [batchesPos_nil k hk] at hb; cases hb
    · rw [batchesPos_cons records k hk hr] at hb
      have hkt1 : 1 ≤ k.toNat := by omega
      have hlen1 : 1 ≤ records.length := List.length_pos.mpr hr
      cases hrest : batchesPos (records.drop k.toNat) k with
      | nil => rw [hrest] at hb; cases hb
      | cons y ys =>
        rw [hrest, List.dropLast_cons₂] at hb
        rcases List.mem_cons.mp hb with hbe | hb2
        · have hdropne : records.drop k.toNat ≠ [] := by
            intro hd
            rw [hd, batchesPos_nil k hk] at hrest
            cases hrest
          have hlt : k.toNat < records.length := by
            have hp := List.length_pos.mpr hdropne
            rw [List.length_drop] at hp
            omega
          rw [hbe, List.length_take]
          omega
        · have ih2 := ih (records.drop k.toNat)
            (by rw [List.length_drop]; omega) b
          rw [hrest] at ih2
          exact ih2 hb2

/-- C7: for every record sequence and every batch size `k > 0`,
`create_batches` succeeds and its batches concatenate back to the input
(no loss, duplication or reordering), every batch has at most `k` records,
and every batch except possibly the last has exactly `k` records; in
particular, 97 records with `k = 96` give exactly the two batches of sizes
96 and 1. -/
theorem create_batches_partition :
    (∀ (α : Type) (records : List α) (k : Int) (bs : List (List α)), 0 < k →
        create_batches records k = .ok bs →
        bs.flatten = records ∧ (∀ b ∈ bs, b.length ≤ k.toNat) ∧
        (∀ b ∈ bs.dropLast, b.length = k.toNat)) ∧
    create_batches (List.range 97) (96 : Int) = .ok [List.range 96, [96]] := by
  constructor
  · intro α records k bs hk hok
    rw [create_batches_eq (by omega)] at hok
    have hbs : bs = batchesPos records k := by cases hok; rfl
    subst hbs
    exact ⟨batchesPos_flatten k hk records.length records le_rfl,
      batchesPos_length_le k hk records.length records le_rfl,
      batchesPos_dropLast_eq k hk records.length records le_rfl⟩
  · decide

/-- Witness for `create_batches_partition` at `records = [10, 20, 30]`,
`k = 2`. -/
theorem create_batches_partition_witness :
    ([[10, 20], [30]] : List (List Nat)).flatten = [10, 20, 30] ∧
    (∀ b ∈ ([[10, 20], [30]] : List (List Nat)), b.length ≤ (2 : Int).toNat) ∧
    (∀ b ∈ ([[10, 20], [30]] : List (List Nat)).dropLast,
      b.length = (2 : Int).toNat) :=
  create_batches_partition.1 Nat [10, 20, 30] 2 [[10, 20], [30]] (by decide)
    (by decide)

/-- C5 counterexample: called with `max_size = -1` (which is "not greater
than zero"), `create_batches` does not fail at all — let alone with a
`ConfigurationError` — it silently succeeds with an empty batch list. -/
theorem create_batches_negative_counterexample :
    create_batches ([0] : List Nat) (-1 : Int) = .ok [] := by decide

theorem pyRange_neg (len : Nat) (k : Int) (hk : k < 0) :
    pyRange 0 (len : Int) k = [] := by
  unfold pyRange
  rw [if_neg (by omega), if_pos hk]
  have hle : ((0 : Int) - (len : Int) + (-k) - 1) / (-k) ≤ 0 := by
    rcases le_or_lt ((0 : Int) - (len : Int) + (-k) - 1) 0 with hx | hx
    · have h2 := Int.ediv_le_ediv (by omega : (0 : Int) < -k) hx
      rwa [Int.zero_ediv] at h2
    · rw [Int.ediv_eq_zero_of_lt (by omega) (by omega)]
  rw [show ((((0 : Int) - (len : Int) + (-k) - 1) / (-k)).toNat) = 0 from
    Int.toNat_of_nonpos hle]
  rfl

/-- C5 amended: `create_batches` never raises a `ConfigurationError` —
no such exception class exists in the repository.  `batch_size = 0` raises
`ValueError` (from Python's `range`); every negative `batch_size` silently
succeeds and returns an empty batch list, dropping all records; every
`batch_size > 0` succeeds and never raises. -/
theorem create_batches_error_behaviour :
    (∀ (α : Type) (records : List α),
        create_batches records (0 : Int) =
          .error (.valueError "range() arg 3 must not be zero")) ∧
    (∀ (α : Type) (records : List α) (k : Int), k < 0 →
        create_batches records k = .ok []) ∧
    (∀ (α : Type) (records : List α) (k : Int), 0 < k →
        ∃ bs, create_batches records k = .ok bs) := by
  refine ⟨?_, ?_, ?_⟩
  · intro α records
    unfold create_batches
    rw [if_pos rfl]
  · intro α records k hk
    unfold create_batches
    rw [if_neg (by omega), pyRange_neg records.length k hk]
    rfl
  · intro α records k hk
    exact ⟨_, by unfold create_batches; rw [if_neg (by omega)]⟩

/-- Witness for `create_batches_error_behaviour`. -/
theorem create_batches_error_behaviour_witness :
    create_batches ([5] : List Nat) (0 : Int) =
        .error (.valueError "range() arg 3 must not be zero") ∧
    create_batches ([5] : List Nat) (-2 : Int) = .ok [] ∧
    ∃ bs, create_batches ([5] : List Nat) (3 : Int) = .ok bs :=
  ⟨create_batches_error_behaviour.1 Nat [5],
    create_batches_error_behaviour.2.1 Nat [5] (-2) (by decide),
    create_batches_error_behaviour.2.2 Nat [5] 3 (by decide)⟩

/-! ## C1 and C2: merge score fusion and the rerank stage -/

theorem filter_map_id_preserving {i : String} {f : MergedDoc → MergedDoc}
    (hpres : ∀ x, (f x).id = x.id) (hfix : ∀ x, x.id = i → f x = x)
    (m : List MergedDoc) :
    (m.map f).filter (fun x => x.id == i) = m.filter (fun x => x.id == i) := by
  rw [List.filter_map]
  rw [show ((fun x : MergedDoc => x.id == i) ∘ f) = (fun x : MergedDoc => x.id == i) from by
    funext x
    simp [Function.comp_apply, hpres x]]
  rw [List.map_congr_left (g := id) ?_, List.map_id]
  intro a ha
  exact hfix a (by simpa using (List.mem_filter.mp ha).2)

theorem dictInsert_filter_ne {i : String} {d : MergedDoc} (hne : d.id ≠ i)
    (m : List MergedDoc) :
    (dictInsert m d).filter (fun x => x.id == i)
      = m.filter (fun x => x.id == i) := by
  unfold dictInsert
  by_cases hany : m.any (fun x => x.id == d.id) = true
  · rw [if_pos hany]
    refine filter_map_id_preserving ?_ ?_ m
    · intro x
      by_cases hx : x.id = d.id
      · rw [if_pos (by simpa using hx), hx]
      · rw [if_neg (by simpa using hx)]
    · intro x hxi
      rw [if_neg (by simp [hxi]; exact fun he => hne he.symm)]
  · rw [if_neg hany, List.filter_append]
    rw [show [d].filter (fun x => x.id == i) = [] from by
      simp [List.filter_cons, hne]]
    rw [List.append_nil]

theorem sparseStep_filter_ne (toDoc : Hit → MergedDoc)
    (hpres : ∀ h, (toDoc h).id = h.id) {i : String} {h : Hit} (hne : h.id ≠ i)
    (m : List MergedDoc) :
    (sparseStep toDoc m h).filter (fun x => x.id == i)
      = m.filter (fun x => x.id == i) := by
  unfold sparseStep
  by_cases hany : m.any (fun x => x.id == h.id) = true
  · rw [if_pos hany]
    refine filter_map_id_preserving ?_ ?_ m
    · intro x
      by_cases hx : x.id = h.id
      · rw [if_pos (by simpa using hx)]
      · rw [if_neg (by simpa using hx)]
    · intro x hxi
      rw [if_neg (by simp [hxi]; intro he; exact absurd he.symm (by simpa [hxi] using hne))]
  · rw [if_neg hany, List.filter_append]
    rw [show [toDoc h].filter (fun x => x.id == i) = [] from by
      simp [List.filter_cons, hpres h, hne]]
    rw [List.append_nil]

theorem denseFold_filter_ne (toDoc : Hit → MergedDoc)
    (hpres : ∀ h, (toDoc h).id = h.id) {i : String} :
    ∀ (l : List Hit) (m : List MergedDoc), (∀ h ∈ l, h.id ≠ i) →
      (l.foldl (fun m h => dictInsert m (toDoc h)) m).filter (fun x => x.id == i)
        = m.filter (fun x => x.id == i) := by
  intro l
  induction l with
  | nil => intro m _; rfl
  | cons h rest ih =>
    intro m hne
    rw [List.foldl_cons]
    rw [ih _ (fun h2 hm => hne h2 (List.mem_cons_of_mem h hm))]
    exact dictInsert_filter_ne (by rw [hpres h]; exact hne h (by simp)) m

theorem sparseFold_filter_ne (toDoc : Hit → MergedDoc)
    (hpres : ∀ h, (toDoc h).id = h.id) {i : String} :
    ∀ (l : List Hit) (m : List MergedDoc), (∀ h ∈ l, h.id ≠ i) →
      (l.foldl (sparseStep toDoc) m).filter (fun x => x.id == i)
        = m.filter (fun x => x.id == i) := by
  intro l
  induction l with
  | nil => intro m _; rfl
  | cons h rest ih =>
    intro m hne
    rw [List.foldl_cons]
    rw [ih _ (fun h2 hm => hne h2 (List.mem_cons_of_mem h hm))]
    exact sparseStep_filter_ne toDoc hpres (hne h (by simp)) m

theorem dictInsert_filter_new {i : String} {d : MergedDoc} (hdi : d.id = i)
    (m : List MergedDoc) (hnil : m.filter (fun x => x.id == i) = []) :
    (dictInsert m d).filter (fun x => x.id == i) = [d] := by
  unfold dictInsert
  rw [if_neg ?_, List.filter_append]
  · rw [hnil, List.nil_append]
    simp [List.filter_cons, hdi]
  · intro hany
    rcases List.any_eq_true.mp hany with ⟨x, hxm, hxid⟩
    have hxi : x.id = i := by rw [← hdi]; simpa using hxid
    have : x ∈ m.filter (fun x => x.id == i) :=
      List.mem_filter.mpr ⟨hxm, by simpa using hxi⟩
    rw [hnil] at this
    cases this

theorem sparseStep_filter_avg (toDoc : Hit → MergedDoc) {i : String} {h : Hit}
    (hhi : h.id = i) (m : List MergedDoc) (x0 : MergedDoc)
    (hone : m.filter (fun x => x.id == i) = [x0]) :
    (sparseStep toDoc m h).filter (fun x => x.id == i)
      = [{ x0 with score := (x0.score + h.score) / 2 }] := by
  have hx0 : x0 ∈ m.filter (fun x => x.id == i) := by rw [hone]; simp
  have hx0m : x0 ∈ m := (List.mem_filter.mp hx0).1
  have hx0i : x0.id = i := by simpa using (List.mem_filter.mp hx0).2
  unfold sparseStep
  rw [if_pos (List.any_eq_true.mpr ⟨x0, hx0m, by simp [hx0i, hhi]⟩)]
  rw [List.filter_map]
  rw [show ((fun x : MergedDoc => x.id == i) ∘ fun x =>
      if x.id == h.id then { x with score := (x.score + h.score) / 2 } else x)
      = (fun x : MergedDoc => x.id == i) from by
    funext x
    by_cases hx : x.id = h.id
    · simp [Function.comp_apply, hx]
    · simp [Function.comp_apply, hx]]
  rw [hone, List.map_cons]
  rw [if_pos (by simp [hx0i, hhi])]
  rfl

/-- The two-pass merge of both merge functions, observed at the id of a hit
present in both lists: the result holds exactly one record for that id — the
dense record with the mean score. -/
theorem mergeFold_filter (toDoc : Hit → MergedDoc)
    (hpres : ∀ h, (toDoc h).id = h.id) (dense sparse : List Hit)
    (hnd : (dense.map Hit.id).Nodup) (hns : (sparse.map Hit.id).Nodup)
    (hd hs : Hit) (hdm : hd ∈ dense) (hsm : hs ∈ sparse)
    (hid : hs.id = hd.id) :
    (sparse.foldl (sparseStep toDoc)
        (dense.foldl (fun m h => dictInsert m (toDoc h)) [])).filter
      (fun x => x.id == hd.id)
      = [{ toDoc hd with score := ((toDoc hd).score + hs.score) / 2 }] := by
  obtain ⟨d1, d2, rfl⟩ := List.append_of_mem hdm
  obtain ⟨s1, s2, rfl⟩ := List.append_of_mem hsm
  rw [List.map_append, List.map_cons] at hnd hns
  have hd1 : ∀ h ∈ d1, h.id ≠ hd.id := by
    intro h hm he
    have : hd.id ∈ d1.map Hit.id := he ▸ List.mem_map_of_mem Hit.id hm
    exact (List.disjoint_of_nodup_append hnd) this (by simp)
  have hd2 : ∀ h ∈ d2, h.id ≠ hd.id := by
    intro h hm he
    have hnd2 := (List.nodup_append.mp hnd).2.1
    rw [List.nodup_cons] at hnd2
    exact hnd2.1 (he ▸ List.mem_map_of_mem Hit.id hm)
  have hs1 : ∀ h ∈ s1, h.id ≠ hd.id := by
    intro h hm he
    have : hs.id ∈ s1.map Hit.id := by rw [hid, ← he]; exact List.mem_map_of_mem Hit.id hm
    exact (List.disjoint_of_nodup_append hns) this (by simp)
  have hs2 : ∀ h ∈ s2, h.id ≠ hd.id := by
    intro h hm he
    have hns2 := (List.nodup_append.mp hns).2.1
    rw [List.nodup_cons] at hns2
    apply hns2.1
    rw [hid, ← he]
    exact List.mem_map_of_mem Hit.id hm
  rw [List.foldl_append, List.foldl_cons, List.foldl_append, List.foldl_cons]
  rw [sparseFold_filter_ne toDoc hpres s2 _ hs2]
  rw [sparseStep_filter_avg toDoc hid _ (toDoc hd) ?_]
  rw [sparseFold_filter_ne toDoc hpres s1 _ hs1]
  rw [denseFold_filter_ne toDoc hpres d2 _ hd2]
  exact dictInsert_filter_new (hpres hd) _
    (by rw [denseFold_filter_ne toDoc hpres d1 [] hd1]; rfl)

/-- C1: if an id occurs (once) in the dense hits and (once) in the sparse
hits, both merge implementations produce exactly one merged result for that
id, whose score is the arithmetic mean `(s1 + s2) / 2` of the dense and
sparse scores and whose every other field (content and attributes) is the
dense hit's. -/
theorem merge_mean_and_dense_precedence (dense sparse : List Hit)
    (hnd : (dense.map Hit.id).Nodup) (hns : (sparse.map Hit.id).Nodup)
    (hd hs : Hit) (hdm : hd ∈ dense) (hsm : hs ∈ sparse)
    (hid : hs.id = hd.id) :
    (((_merge_results dense sparse).filter (fun m => m.id == hd.id)).length = 1 ∧
      ∀ m ∈ _merge_results dense sparse, m.id = hd.id →
        m = { denseDocAll hd with score := (hd.score + hs.score) / 2 }) ∧
    (((merge_results dense sparse).filter (fun m => m.id == hd.id)).length = 1 ∧
      ∀ m ∈ merge_results dense sparse, m.id = hd.id →
        m = { hybridDoc hd with score := (hd.score + hs.score) / 2 }) := by
  have hall := mergeFold_filter denseDocAll (fun h => rfl) dense sparse hnd hns
    hd hs hdm hsm hid
  have hhyb := mergeFold_filter hybridDoc (fun h => rfl) dense sparse hnd hns
    hd hs hdm hsm hid
  constructor
  · have hperm : (_merge_results dense sparse).Perm
        (sparse.foldl (sparseStep denseDocAll)
          (dense.foldl (fun m h => dictInsert m (denseDocAll h)) [])) :=
      List.perm_insertionSort _ _
    constructor
    · rw [← List.countP_eq_length_filter, hperm.countP_eq,
        List.countP_eq_length_filter, hall]
      rfl
    · intro m hm hmi
      have hm2 : m ∈ (sparse.foldl (sparseStep denseDocAll)
          (dense.foldl (fun m h => dictInsert m (denseDocAll h)) [])).filter
            (fun x => x.id == hd.id) :=
        List.mem_filter.mpr ⟨hperm.mem_iff.mp hm, by simpa using hmi⟩
      rw [hall] at hm2
      simpa using hm2
  · have hperm : (merge_results dense sparse).Perm
        (sparse.foldl (sparseStep hybridDoc)
          (dense.foldl (fun m h => dictInsert m (hybridDoc h)) [])) :=
      List.perm_insertionSort _ _
    constructor
    · rw [← List.countP_eq_length_filter, hperm.countP_eq,
        List.countP_eq_length_filter, hhyb]
      rfl
    · intro m hm hmi
      have hm2 : m ∈ (sparse.foldl (sparseStep hybridDoc)
          (dense.foldl (fun m h => dictInsert m (hybridDoc h)) [])).filter
            (fun x => x.id == hd.id) :=
        List.mem_filter.mpr ⟨hperm.mem_iff.mp hm, by simpa using hmi⟩
      rw [hhyb] at hm2
      simpa using hm2

/-- A dense and a sparse hit sharing the id `"a"`, with different scores,
contents and attributes. -/
def hC1d : Hit := ⟨"a", "dense content", 1, [("industry", "ins")]⟩

def hC1s : Hit := ⟨"a", "sparse content", 3, [("keywords", "k")]⟩

/-- Witness for `merge_mean_and_dense_precedence`. -/
theorem merge_mean_witness :
    ((((_merge_results [hC1d] [hC1s]).filter
        (fun m => m.id == hC1d.id)).length = 1 ∧
      ∀ m ∈ _merge_results [hC1d] [hC1s], m.id = hC1d.id →
        m = { denseDocAll hC1d with score := (hC1d.score + hC1s.score) / 2 }) ∧
     (((merge_results [hC1d] [hC1s]).filter
        (fun m => m.id == hC1d.id)).length = 1 ∧
      ∀ m ∈ merge_results [hC1d] [hC1s], m.id = hC1d.id →
        m = { hybridDoc hC1d with score := (hC1d.score + hC1s.score) / 2 })) :=
  merge_mean_and_dense_precedence [hC1d] [hC1s] (by simp) (by simp) hC1d hC1s
    (List.mem_singleton.mpr rfl) (List.mem_singleton.mpr rfl) rfl

/-- C2 counterexample: a query whose fan-out returns no hits at all (so the
merged set is empty) still invokes the reranker — exactly once, with zero
documents and `top_n = 0` — contradicting the claim that the reranker is
never invoked on an empty merged set. -/
theorem cascading_search_empty_invokes_reranker :
    ((cascading_search (fun c => c.documents.length) "q" [] [] 5).2).length = 1 ∧
    (cascading_search (fun c => c.documents.length) "q" [] [] 5).2 =
      [{ model := "bge-reranker-v2-m3", query := "q", documents := [],
         top_n := 0 }] := by
  constructor <;> rfl

/-- C2 amended: whenever the merge stage produces an empty merged set,
`cascading_search` does NOT skip the rerank stage: it invokes the reranker
exactly once, passing an empty document list and `top_n = min(rerank_top_n,
0) = 0`, and returns whatever that call returns. -/
theorem cascading_search_empty_merge (β : Type)
    (reranker : RerankInvocation → β) (query : String)
    (dense_hits sparse_hits : List Hit) (rerank_top_n : Nat)
    (hempty : _merge_results dense_hits sparse_hits = []) :
    (cascading_search reranker query dense_hits sparse_hits rerank_top_n).2 =
      [{ model := "bge-reranker-v2-m3", query := query, documents := [],
         top_n := 0 }] ∧
    (cascading_search reranker query dense_hits sparse_hits rerank_top_n).1 =
      reranker
        { model := "bge-reranker-v2-m3", query := query, documents := [],
          top_n := 0 } := by
  unfold cascading_search
  dsimp only
  rw [hempty]
  simp

/-- Witness for `cascading_search_empty_merge`. -/
theorem cascading_search_empty_merge_witness :
    (cascading_search (fun _ : RerankInvocation => (0 : Nat)) "q" [] [] 7).2 =
      [{ model := "bge-reranker-v2-m3", query := "q", documents := [],
         top_n := 0 }] ∧
    (cascading_search (fun _ : RerankInvocation => (0 : Nat)) "q" [] [] 7).1 =
      (fun _ : RerankInvocation => (0 : Nat))
        { model := "bge-reranker-v2-m3", query := "q", documents := [],
          top_n := 0 } :=
  cascading_search_empty_merge Nat (fun _ : RerankInvocation => (0 : Nat))
    "q" [] [] 7 rfl
